import Mathlib

/-!
Verification of the chunked-upload core of the `file-server-next` repository.

The development shallowly embeds:
* `StorageUtils.parseSize` / `StorageUtils.formatSize`   (src/app/config/nas.ts)
* the chunked upload handler `handleChunkedUpload` and the
  whole-file branch of `POST`                            (src/app/api/upload/route.ts)
* the client-side chunk planner and retry loop
  `FileUploader.uploadFiles` / `uploadLargeFile`         (src/unnamed/part_002)

Files are byte lists, the filesystem is an association list from paths to
byte lists, and JavaScript numbers are modelled as `Nat`/`Int`/`ℚ` (all the
quantities involved are exactly representable).  `Date.now()` becomes an
explicit `now : Nat` argument of the handler.
-/

namespace FileServer

/-! ### Decimal rendering of naturals (JS `Number.prototype.toString` for integers) -/

/-- Decimal digit characters of `n`, most significant first, with explicit fuel
(structural recursion so that the kernel can evaluate it). -/
def natDigits : Nat → Nat → List Char
  | 0, _ => []
  | f + 1, n =>
    if n < 10 then [Nat.digitChar n]
    else natDigits f (n / 10) ++ [Nat.digitChar (n % 10)]

/-- Decimal string of a natural number, as JS renders integer numbers. -/
def jsNatStr (n : Nat) : String := ⟨natDigits (n + 1) n⟩

/-- Numeric value of a decimal digit character. -/
def charVal (c : Char) : Nat := c.toNat - 48

/-- Value of a digit list, most significant first. -/
def digitsVal (cs : List Char) : Nat := cs.foldl (fun a c => a * 10 + charVal c) 0

theorem digitsVal_append (l₁ l₂ : List Char) :
    digitsVal (l₁ ++ l₂) = (l₂.foldl (fun a c => a * 10 + charVal c) (digitsVal l₁)) := by
  simp [digitsVal, List.foldl_append]

theorem charVal_digitChar : ∀ n < 10, charVal (Nat.digitChar n) = n := by decide

theorem digitsVal_natDigits : ∀ (f n : Nat), n < 10 ^ f → digitsVal (natDigits f n) = n := by
  intro f
  induction f with
  | zero =>
    intro n h
    have hn : n = 0 := by simpa using h
    subst hn
    rfl
  | succ f ih =>
    intro n h
    by_cases h10 : n < 10
    · simp [natDigits, h10, digitsVal, charVal_digitChar _ h10]
    · have hdiv : n / 10 < 10 ^ f := by
        have : n < 10 ^ f * 10 := by
          calc n < 10 ^ (f + 1) := h
          _ = 10 ^ f * 10 := by ring
        exact Nat.div_lt_of_lt_mul (by omega)
      have hmod : n % 10 < 10 := Nat.mod_lt _ (by omega)
      simp only [natDigits, if_neg h10]
      rw [digitsVal_append]
      simp [ih _ hdiv, charVal_digitChar _ hmod]
      omega

theorem digitsVal_jsNatStr (n : Nat) : digitsVal (jsNatStr n).data = n := by
  have h : n < 10 ^ (n + 1) := by
    calc n < n + 1 := Nat.lt_succ_self n
    _ ≤ 10 ^ (n + 1) := Nat.le_of_lt (Nat.lt_pow_self (by omega) _)
  exact digitsVal_natDigits (n + 1) n h

theorem jsNatStr_injective : Function.Injective jsNatStr := by
  intro m n h
  have hd : (jsNatStr m).data = (jsNatStr n).data := congrArg String.data h
  have := congrArg digitsVal hd
  rwa [digitsVal_jsNatStr, digitsVal_jsNatStr] at this

/-! ### Size codec (`StorageUtils` in src/app/config/nas.ts) -/

/-- Multiplier table of `StorageUtils.parseSize`:
`{B:1, KB:1024, MB:1024², GB:1024³, TB:1024⁴}`. -/
def unitMultiplier (u : String) : Nat :=
  if u = "B" then 1
  else if u = "KB" then 1024
  else if u = "MB" then 1024 * 1024
  else if u = "GB" then 1024 * 1024 * 1024
  else if u = "TB" then 1024 * 1024 * 1024 * 1024
  else 1

/-- Whitespace class of the regex `\s` for the characters we model
(the JS class also contains exotic Unicode spaces). -/
def isSpaceChar (c : Char) : Bool :=
  c = ' ' || c = '\t' || c = '\n' || c = '\r'

/-- Result of matching `^(\d+(?:\.\d+)?)\s*([KMGT]?B)$` against a string:
integer digits, optional fraction digits, and the unit letters (upcased). -/
structure SizeMatch where
  intPart : List Char
  fracPart : List Char
  unit : String
deriving Repr, DecidableEq

/-- Attempt to read the unit part `([KMGT]?B)$` (case-insensitive), after
skipping `\s*`; returns the canonical upper-case unit. -/
def readUnit (cs : List Char) : Option String :=
  match cs.dropWhile isSpaceChar with
  | [b] => if b = 'B' ∨ b = 'b' then some "B" else none
  | [k, b] =>
    if ¬(b = 'B' ∨ b = 'b') then none
    else if k = 'K' ∨ k = 'k' then some "KB"
    else if k = 'M' ∨ k = 'm' then some "MB"
    else if k = 'G' ∨ k = 'g' then some "GB"
    else if k = 'T' ∨ k = 't' then some "TB"
    else none
  | _ => none

/-- Match the full regex `^(\d+(?:\.\d+)?)\s*([KMGT]?B)$` of `parseSize`. -/
def matchSize (s : String) : Option SizeMatch :=
  let cs := s.data
  let intPart := cs.takeWhile Char.isDigit
  if intPart = [] then none
  else
    let rest := cs.dropWhile Char.isDigit
    match rest with
    | '.' :: rest₂ =>
      let fracPart := rest₂.takeWhile Char.isDigit
      if fracPart = [] then none
      else
        match readUnit (rest₂.dropWhile Char.isDigit) with
        | some u => some ⟨intPart, fracPart, u⟩
        | none => none
    | _ =>
      match readUnit rest with
      | some u => some ⟨intPart, [], u⟩
      | none => none

/-- Exact value of the decimal literal captured by group 1 (JS `parseFloat`,
exact since we stay in `ℚ`). -/
def decimalValue (m : SizeMatch) : ℚ :=
  (digitsVal m.intPart : ℚ) + (digitsVal m.fracPart : ℚ) / (10 : ℚ) ^ m.fracPart.length

/-- Embedding of `StorageUtils.parseSize`: value of the number times the unit
multiplier on a match, `0` on no match. -/
def parseSize (s : String) : ℚ :=
  match matchSize s with
  | none => 0
  | some m => decimalValue m * (unitMultiplier m.unit : ℚ)

/-- Unit table of `StorageUtils.formatSize`. -/
def sizeUnits : List String := ["B", "KB", "MB", "GB", "TB"]

/-- Render `parseFloat(q.toFixed(2)).toString()` for a non-negative rational
whose double value is exact: round to two decimals, then drop trailing
fractional zeros. -/
def renderFixed2 (q : ℚ) : String :=
  let c : Nat := (⌊q * 100 + 1 / 2⌋).toNat
  let ip : Nat := c / 100
  let fr : Nat := c % 100
  if fr = 0 then jsNatStr ip
  else if fr % 10 = 0 then jsNatStr ip ++ "." ++ jsNatStr (fr / 10)
  else if fr < 10 then jsNatStr ip ++ ".0" ++ jsNatStr fr
  else jsNatStr ip ++ "." ++ jsNatStr fr

/-- Embedding of `StorageUtils.formatSize`: `bytes = 0 ↦ "0 B"`, otherwise
`i = ⌊log₁₀₂₄ bytes⌋` picks the unit and the mantissa is shown with two
decimals (trailing zeros dropped by `parseFloat`).  An index past the table
renders as JS `undefined`. -/
def formatSize (bytes : Nat) : String :=
  if bytes = 0 then "0 B"
  else
    let i := Nat.log 1024 bytes
    renderFixed2 ((bytes : ℚ) / (1024 : ℚ) ^ i) ++ " " ++ (sizeUnits.getD i "undefined")

/-! ### UTF-8 and base64 (`Buffer.from(fileName).toString('base64')`) -/

/-- UTF-8 bytes of one code point. -/
def utf8Char (c : Char) : List Nat :=
  let n := c.toNat
  if n < 128 then [n]
  else if n < 2048 then [192 + n / 64, 128 + n % 64]
  else if n < 65536 then [224 + n / 4096, 128 + n / 64 % 64, 128 + n % 64]
  else [240 + n / 262144, 128 + n / 4096 % 64, 128 + n / 64 % 64, 128 + n % 64]

/-- UTF-8 bytes of a string (Node `Buffer.from(string)`). -/
def utf8Bytes (s : String) : List Nat := (s.data.map utf8Char).flatten

/-- Character of the standard base64 alphabet. -/
def base64Char (n : Nat) : Char :=
  "ABCDEFGHIJKLMNOPQRSTUVWXYZabcdefghijklmnopqrstuvwxyz0123456789+/".data.getD n '='

/-- Base64 encoding of a byte list, three bytes at a time with `=` padding. -/
def base64Chunks : List Nat → List Char
  | [] => []
  | [a] => [base64Char (a / 4), base64Char (a % 4 * 16), '=', '=']
  | [a, b] => [base64Char (a / 4), base64Char (a % 4 * 16 + b / 16), base64Char (b % 16 * 4), '=']
  | a :: b :: c :: rest =>
    base64Char (a / 4) :: base64Char (a % 4 * 16 + b / 16) ::
      base64Char (b % 16 * 4 + c / 64) :: base64Char (c % 64) :: base64Chunks rest

/-- Base64 encoding of a byte list as a string (Node `buffer.toString('base64')`). -/
def base64Encode (bs : List Nat) : String := ⟨base64Chunks bs⟩

/-- Character class of the regex `[a-zA-Z0-9]`. -/
def isAlnumChar (c : Char) : Bool :=
  (65 ≤ c.toNat && c.toNat ≤ 90) || (97 ≤ c.toNat && c.toNat ≤ 122) || (48 ≤ c.toNat && c.toNat ≤ 57)

/-- Embedding of the temp-name hash of `handleChunkedUpload`:
`Buffer.from(fileName).toString('base64').replace(/[^a-zA-Z0-9]/g, '').substring(0, 16)`.
The global regex replace with the empty string is a `concatMap` that keeps
matching characters. -/
def fileNameHash (fileName : String) : String :=
  ⟨(((base64Encode (utf8Bytes fileName)).data.map
      (fun c => if isAlnumChar c then [c] else [])).flatten).take 16⟩

/-- Embedding of the temp file name: `` `temp_${fileHash}_${Date.now()}` ``. -/
def tempFileName (fileName : String) (now : Nat) : String :=
  "temp_" ++ fileNameHash fileName ++ "_" ++ jsNatStr now

/-- Following the spec's words, for comparison with `tempFileName`:
`temp_<hash>_<timestampMillis>` where the hash is the first 16 alphanumeric
characters of the base64 encoding of the original filename. -/
def specTempFileName (fileName : String) (now : Nat) : String :=
  "temp_" ++ ⟨((base64Encode (utf8Bytes fileName)).data.filter isAlnumChar).take 16⟩
    ++ "_" ++ jsNatStr now

/-! ### Strings and paths (`route.ts` helpers) -/

/-- Rendering of a JS integer (`parseInt` results may be negative). -/
def jsIntStr (i : Int) : String :=
  if i < 0 then "-" ++ jsNatStr i.natAbs else jsNatStr i.toNat

/-- Trim of leading and trailing whitespace (JS `String.prototype.trim`,
restricted to the ASCII whitespace we model). -/
def jsTrim (s : String) : String :=
  ⟨((s.data.dropWhile isSpaceChar).reverse.dropWhile isSpaceChar).reverse⟩

/-- Global replace of `..` by the empty string, left to right
(`uploadPath.replace(/\.\./g, '')`). -/
def stripDotDot : List Char → List Char
  | '.' :: '.' :: rest => stripDotDot rest
  | c :: rest => c :: stripDotDot rest
  | [] => []

/-- Collapse of each run of slashes to one (`.replace(/\/+/g, '/')`). -/
def collapseSlashes : List Char → List Char
  | [] => []
  | [c] => [c]
  | c :: d :: rest =>
    if c = '/' ∧ d = '/' then collapseSlashes (d :: rest)
    else c :: collapseSlashes (d :: rest)

/-- Embedding of the path sanitization of `route.ts`:
`uploadPath.replace(/\.\./g, '').replace(/\/+/g, '/')`. -/
def sanitizePath (p : String) : String := ⟨collapseSlashes (stripDotDot p.data)⟩

/-- Embedding of Node `path.join` restricted to joining a directory and a
name with one separator. -/
def pathJoin (a b : String) : String := a ++ "/" ++ b

/-- Default `NAS_CONFIG.STORAGE_PATH` of `src/app/config/nas.ts`. -/
def STORAGE_PATH : String := "/mnt/nas/storage"

/-- Last segment after the final dot: `name.split('.').pop()` (the whole
name when there is no dot). -/
def dotExt (name : String) : String :=
  ⟨(name.data.reverse.takeWhile (fun c => c != '.')).reverse⟩

/-- Leading segments joined back: `nameParts.join('.')` after popping the
last segment (empty when there is no dot). -/
def dotBase (name : String) : String :=
  let r := name.data.reverse.takeWhile (fun c => c != '.')
  if r.length = name.data.length then ""
  else ⟨name.data.take (name.data.length - r.length - 1)⟩

/-- Embedding of `file.name.replace(/\.[^/.]+$/, '')` from the whole-file
upload branch: strip a final dot-extension whose characters contain neither
`.` nor `/`. -/
def regexStripExt (name : String) : String :=
  let rev := name.data.reverse
  match rev.takeWhile (fun c => c != '.' && c != '/'),
      rev.dropWhile (fun c => c != '.' && c != '/') with
  | [], _ => name
  | _ :: _, '.' :: pre => ⟨pre.reverse⟩
  | _ :: _, _ => name

/-! ### Filesystem model -/

/-- Association list from absolute paths to file contents (byte lists). -/
abbrev FS := List (String × List Nat)

/-- Content stored at a path. -/
def fsLookup : FS → String → Option (List Nat)
  | [], _ => none
  | e :: rest, p => if e.1 = p then some e.2 else fsLookup rest p

/-- Embedding of `existsSync`. -/
def fsExists (fs : FS) (p : String) : Bool := (fsLookup fs p).isSome

/-- Embedding of `writeFile`: create or overwrite. -/
def fsWrite : FS → String → List Nat → FS
  | [], p, bs => [(p, bs)]
  | e :: rest, p, bs => if e.1 = p then (p, bs) :: rest else e :: fsWrite rest p bs

/-- Embedding of `appendFile`: append to the existing content, or create the
file when it does not exist yet. -/
def fsAppend (fs : FS) (p : String) (bs : List Nat) : FS :=
  match fsLookup fs p with
  | some old => fsWrite fs p (old ++ bs)
  | none => fsWrite fs p bs

/-- Removal of a path (used by `rename`). -/
def fsRemove : FS → String → FS
  | [], _ => []
  | e :: rest, p => if e.1 = p then fsRemove rest p else e :: fsRemove rest p

/-- Embedding of `rename src dst` when `src` exists (the only case the
verified traces reach; a missing source would raise an IO error). -/
def fsRename (fs : FS) (src dst : String) : FS :=
  match fsLookup fs src with
  | some bs => fsWrite (fsRemove fs src) dst bs
  | none => fs

/-! ### Collision resolution of the Completion Finalizer -/

/-- Candidate name tried with counter `k`: the original name for `k = 0`,
then `` `${baseName}_${k}.${extension}` `` as in the `while` loop of
`handleChunkedUpload`. -/
def collisionCandidate (fileName : String) (k : Nat) : String :=
  if k = 0 then fileName
  else dotBase fileName ++ "_" ++ jsNatStr k ++ "." ++ dotExt fileName

/-- Fuel-driven embedding of the collision `while` loop: starting at counter
`k`, return the first counter whose candidate name is free. -/
def findFreeCounter (fs : FS) (dir fileName : String) : Nat → Nat → Nat
  | 0, k => k
  | fuel + 1, k =>
    if fsExists fs (pathJoin dir (collisionCandidate fileName k)) then
      findFreeCounter fs dir fileName fuel (k + 1)
    else k

/-- Counter at which the collision loop stops (fuel `fs.length + 2` is shown
sufficient below). -/
def resolveCollisionCounter (fs : FS) (dir fileName : String) : Nat :=
  findFreeCounter fs dir fileName (fs.length + 2) 0

/-- Final unique name chosen by the Completion Finalizer. -/
def resolveCollision (fs : FS) (dir fileName : String) : String :=
  collisionCandidate fileName (resolveCollisionCounter fs dir fileName)

/-! ### The chunked upload handler (`handleChunkedUpload` in route.ts) -/

/-- Wire content of one chunked request (multipart fields). -/
structure ChunkReq where
  bytes : List Nat
  uploadPath : String
  chunkIndex : Int
  totalChunks : Int
  fileName : String
  mimeType : String
deriving Repr, DecidableEq

/-- File record returned on completion. -/
structure FileRecord where
  id : String
  name : String
  originalName : String
  size : Nat
  mimeType : String
  path : String
  sizeFormatted : String
deriving Repr, DecidableEq

/-- JSON body of a non-final chunk acknowledgement. -/
structure ChunkAck where
  success : Bool
  message : String
  chunkIndex : Int
  totalChunks : Int
  completed : Bool
deriving Repr, DecidableEq

/-- JSON body of a completion response. -/
structure ChunkCompletion where
  success : Bool
  message : String
  files : List FileRecord
  uploadPath : String
  completed : Bool
deriving Repr, DecidableEq

/-- Response of the chunked endpoint: an error with HTTP status, a receipt
acknowledgement, or a completion. -/
inductive ChunkResponse where
  | err (message : String) (status : Nat)
  | ack (a : ChunkAck)
  | complete (c : ChunkCompletion)
deriving Repr, DecidableEq

/-- Embedding of `handleChunkedUpload`.  `now` models `Date.now()` at this
request and `rand` the `Math.random` suffix used in the record id; the
`mkdir` call has no counterpart because directories are implicit in the
filesystem model. -/
def handleChunkedUpload (fs : FS) (req : ChunkReq) (now : Nat) (rand : String) :
    ChunkResponse × FS :=
  if req.chunkIndex < 0 ∨ req.chunkIndex ≥ req.totalChunks then
    (.err ("Invalid chunk index: " ++ jsIntStr req.chunkIndex ++ " (must be 0-"
      ++ jsIntStr (req.totalChunks - 1) ++ ")") 400, fs)
  else if req.totalChunks ≤ 0 then
    (.err ("Invalid total chunks: " ++ jsIntStr req.totalChunks) 400, fs)
  else if jsTrim req.fileName = "" then
    (.err "Invalid filename provided" 400, fs)
  else
    let sanitizedPath := sanitizePath req.uploadPath
    let fullUploadPath := pathJoin STORAGE_PATH sanitizedPath
    let tempPath := pathJoin fullUploadPath (tempFileName req.fileName now)
    let fs₁ := if req.chunkIndex = 0 then fsWrite fs tempPath req.bytes
      else fsAppend fs tempPath req.bytes
    if req.chunkIndex = req.totalChunks - 1 then
      let uniqueFileName := resolveCollision fs₁ fullUploadPath req.fileName
      let finalPath := pathJoin fullUploadPath uniqueFileName
      let fs₂ := fsRename fs₁ tempPath finalPath
      let finalSize := ((fsLookup fs₂ finalPath).getD []).length
      (.complete {
        success := true
        message := "Chunked upload completed successfully"
        files := [{
          id := "chunked_" ++ jsNatStr now ++ "_" ++ rand
          name := uniqueFileName
          originalName := req.fileName
          size := finalSize
          mimeType := req.mimeType
          path := sanitizedPath ++ "/" ++ uniqueFileName
          sizeFormatted := formatSize finalSize }]
        uploadPath := sanitizedPath
        completed := true }, fs₂)
    else
      (.ack {
        success := true
        message := "Chunk " ++ jsIntStr (req.chunkIndex + 1) ++ "/"
          ++ jsIntStr req.totalChunks ++ " uploaded successfully"
        chunkIndex := req.chunkIndex
        totalChunks := req.totalChunks
        completed := false }, fs₁)

/-- Run of a sequence of chunked requests against the server, each with its
own `Date.now()` value and random suffix. -/
def runChunkRequests (fs : FS) : List (ChunkReq × Nat × String) → List ChunkResponse × FS
  | [] => ([], fs)
  | (req, now, rand) :: rest =>
    let r := handleChunkedUpload fs req now rand
    let rs := runChunkRequests r.2 rest
    (r.1 :: rs.1, rs.2)

/-! ### Chunk Planner (`FileUploader` in src/unnamed/part_002) -/

/-- Ceiling division, the value of `Math.ceil(file.size / CHUNK_SIZE)`. -/
def ceilDiv (S C : Nat) : Nat := (S + C - 1) / C

/-- One planned chunk request: the byte slice together with the multipart
metadata `uploadLargeFile` attaches. -/
structure PlannedChunk where
  bytes : List Nat
  chunkIndex : Nat
  totalChunks : Nat
  fileName : String
  path : String
deriving Repr, DecidableEq

/-- Request emitted by the Planner: either a single whole-file upload with no
chunk metadata, or one chunk. -/
inductive UploadRequest where
  | whole (bytes : List Nat) (fileName : String) (path : String)
  | chunk (c : PlannedChunk)
deriving Repr, DecidableEq

/-- Chunks of `uploadLargeFile`: chunk `K` carries
`file.slice(K * C, min((K + 1) * C, size))`. -/
def planChunks (bytes : List Nat) (fileName path : String) (C : Nat) : List PlannedChunk :=
  let totalChunks := ceilDiv bytes.length C
  (List.range totalChunks).map fun K =>
    { bytes := (bytes.drop (K * C)).take C
      chunkIndex := K
      totalChunks := totalChunks
      fileName := fileName
      path := path }

/-- Decision of `uploadFiles` for one file: chunk when `file.size > CHUNK_SIZE`,
else one whole-file request.  The emitted list order is the strictly
sequential send order (each request is awaited before the next). -/
def planRequests (bytes : List Nat) (fileName path : String) (C : Nat) : List UploadRequest :=
  if bytes.length > C then (planChunks bytes fileName path C).map UploadRequest.chunk
  else [UploadRequest.whole bytes fileName path]

/-- Chunk threshold of the Planner:
`Math.max(1024 * 1024, StorageUtils.parseSize(NAS_CONFIG.CHUNK_SIZE))`, for an
integer-valued configured size. -/
def chunkThreshold (configured : Nat) : Nat := max (1024 * 1024) configured

/-! ### Retry loop of `uploadLargeFile` -/

/-- Observable client events: a transmission attempt of a chunk (attempts are
numbered from 0) and a backoff wait (milliseconds) inside that chunk's retry
loop. -/
inductive UploadEvent where
  | send (chunkIndex attempt : Nat)
  | wait (chunkIndex ms : Nat)
deriving Repr, DecidableEq

/-- Retry loop for one chunk (`while (retryCount < maxRetries && !chunkSuccess)`
with `maxRetries = 3`): `oracle ci a` tells whether attempt `a` of chunk `ci`
succeeds (a failed fetch, a non-2xx status and a `success:false` body all
throw into the same catch).  After a failure the loop waits
`1000 * retryCount` ms with the incremented count, and gives up once
`retryCount ≥ maxRetries`. -/
def runChunkAttempts (oracle : Nat → Nat → Bool) (ci : Nat) : Nat → Nat → List UploadEvent × Bool
  | 0, _ => ([], false)
  | fuel + 1, retryCount =>
    if oracle ci retryCount then ([.send ci retryCount], true)
    else if retryCount + 1 ≥ 3 then ([.send ci retryCount], false)
    else
      let r := runChunkAttempts oracle ci fuel (retryCount + 1)
      (.send ci retryCount :: .wait ci ((retryCount + 1) * 1000) :: r.1, r.2)

/-- Sequential chunk loop of `uploadLargeFile` over chunks `ci, ci+1, …`
(`n` chunks remain): a chunk whose attempts are exhausted throws, aborting
the whole file with that chunk's index. -/
def runUploadChunks (oracle : Nat → Nat → Bool) : Nat → Nat → List UploadEvent × Except Nat Unit
  | 0, _ => ([], .ok ())
  | n + 1, ci =>
    let r := runChunkAttempts oracle ci 3 0
    if r.2 then
      let rest := runUploadChunks oracle n (ci + 1)
      (r.1 ++ rest.1, rest.2)
    else (r.1, .error ci)

/-- Client-observed trace of one chunked file upload with `totalChunks`
chunks. -/
def uploadLargeFileTrace (oracle : Nat → Nat → Bool) (totalChunks : Nat) :
    List UploadEvent × Except Nat Unit :=
  runUploadChunks oracle totalChunks 0

/-- Error message thrown when one chunk exhausts its retries:
`` `Chunk ${chunkIndex + 1} failed after ${maxRetries} attempts: …` ``. -/
def chunkFailureMessage (ci : Nat) : String :=
  "Chunk " ++ jsNatStr (ci + 1) ++ " failed after 3 attempts"

/-! ### Whole-file (non-chunked) branch of `POST` -/

/-- One file of a non-chunked upload. -/
structure WholeFileUpload where
  name : String
  bytes : List Nat
  mimeType : String
deriving Repr, DecidableEq

/-- Generated on-disk name of the whole-file branch:
`` `${baseName}_${timestamp}_${randomSuffix}.${fileExtension}` `` with
`fileExtension = file.name.split('.').pop()` and
`baseName = file.name.replace(/\.[^/.]+$/, '')`. -/
def uniqueUploadName (name : String) (now : Nat) (rand : String) : String :=
  regexStripExt name ++ "_" ++ jsNatStr now ++ "_" ++ rand ++ "." ++ dotExt name

/-- Embedding of the per-file body of the whole-file loop in `POST`: write the
bytes under the generated unique name and build the returned record. -/
def processWholeFile (fs : FS) (f : WholeFileUpload) (uploadPath : String) (now : Nat)
    (rand : String) : FileRecord × FS :=
  let sanitizedPath := sanitizePath uploadPath
  let fullUploadPath := pathJoin STORAGE_PATH sanitizedPath
  let uniqueName := uniqueUploadName f.name now rand
  let filePath := pathJoin fullUploadPath uniqueName
  ({ id := jsNatStr now ++ "_" ++ rand
     name := f.name
     originalName := f.name
     size := f.bytes.length
     mimeType := f.mimeType
     path := sanitizedPath ++ "/" ++ uniqueName
     sizeFormatted := formatSize f.bytes.length }, fsWrite fs filePath f.bytes)

/-! ### Repeated uploads of one name -/

/-- Temp path a chunked request for `fileName` at time `now` resolves to. -/
def tempPathOf (fileName uploadPath : String) (now : Nat) : String :=
  pathJoin (pathJoin STORAGE_PATH (sanitizePath uploadPath)) (tempFileName fileName now)

/-- One complete upload of `fileName` (a single final chunk,
`totalChunks = 1`), returning the finalized name reported by the server and
the new filesystem. -/
def uploadOnce (fs : FS) (fileName uploadPath : String) (bytes : List Nat) (now : Nat) :
    String × FS :=
  match handleChunkedUpload fs
      { bytes := bytes, uploadPath := uploadPath, chunkIndex := 0, totalChunks := 1,
        fileName := fileName, mimeType := "" } now "r" with
  | (.complete c, fs₂) =>
    (match c.files with
     | f :: _ => f.name
     | [] => "", fs₂)
  | (_, fs₂) => ("", fs₂)

/-- Trace of `N` successive completed uploads of the same `fileName`: each
step runs at a time whose temp path is not already a stored file, and records
the finalized name the server reported. -/
inductive UploadSeq (fileName uploadPath : String) : FS → List String → FS → Prop where
  | nil (fs : FS) : UploadSeq fileName uploadPath fs [] fs
  | step (fs fsEnd : FS) (bytes : List Nat) (now : Nat) (names : List String)
      (hTemp : fsExists fs (tempPathOf fileName uploadPath now) = false)
      (hRest : UploadSeq fileName uploadPath (uploadOnce fs fileName uploadPath bytes now).2
        names fsEnd) :
      UploadSeq fileName uploadPath fs
        ((uploadOnce fs fileName uploadPath bytes now).1 :: names) fsEnd

/-! ### Helper lemmas on digit strings -/

theorem digitChar_isDigit : ∀ n < 10, (Nat.digitChar n).isDigit = true := by decide

theorem natDigits_ne_nil (f n : Nat) : natDigits (f + 1) n ≠ [] := by
  by_cases h : n < 10 <;> simp [natDigits, h]

theorem natDigits_isDigit : ∀ (f n : Nat), ∀ c ∈ natDigits f n, c.isDigit = true := by
  intro f
  induction f with
  | zero => intro n c hc; simp [natDigits] at hc
  | succ f ih =>
    intro n c hc
    by_cases h : n < 10
    · simp [natDigits, h] at hc
      exact hc ▸ digitChar_isDigit n h
    · simp [natDigits, h] at hc
      rcases hc with hc | hc
      · exact ih _ _ hc
      · exact hc ▸ digitChar_isDigit _ (Nat.mod_lt _ (by omega))

theorem takeWhile_all_append (p : Char → Bool) (l₁ : List Char) (c : Char) (t : List Char)
    (h₁ : ∀ x ∈ l₁, p x = true) (hc : p c = false) :
    (l₁ ++ c :: t).takeWhile p = l₁ := by
  induction l₁ with
  | nil => simp [List.takeWhile, hc]
  | cons a l ih =>
    have ha : p a = true := h₁ a (by simp)
    simp only [List.cons_append, List.takeWhile, ha]
    simp [ih fun x hx => h₁ x (by simp [hx])]

theorem dropWhile_all_append (p : Char → Bool) (l₁ : List Char) (c : Char) (t : List Char)
    (h₁ : ∀ x ∈ l₁, p x = true) (hc : p c = false) :
    (l₁ ++ c :: t).dropWhile p = c :: t := by
  induction l₁ with
  | nil => simp [List.dropWhile, hc]
  | cons a l ih =>
    have ha : p a = true := h₁ a (by simp)
    simp only [List.cons_append, List.dropWhile, ha]
    exact ih fun x hx => h₁ x (by simp [hx])

theorem matchSize_digits_tail (n : Nat) (c : Char) (t : List Char) (U : String)
    (hcd : c.isDigit = false) (hcdot : c ≠ '.')
    (hread : readUnit (c :: t) = some U) :
    matchSize ⟨natDigits (n + 1) n ++ c :: t⟩ = some ⟨natDigits (n + 1) n, [], U⟩ := by
  unfold matchSize
  simp only [takeWhile_all_append Char.isDigit _ _ _ (natDigits_isDigit (n + 1) n) hcd,
    dropWhile_all_append Char.isDigit _ _ _ (natDigits_isDigit (n + 1) n) hcd,
    if_neg (natDigits_ne_nil n n)]
  split
  · next heq => exact absurd (List.cons.injEq .. ▸ heq).1 hcdot
  · simp [hread]

theorem parseSize_natStr_unit (n : Nat) (c : Char) (t : List Char) (U : String)
    (hcd : c.isDigit = false) (hcdot : c ≠ '.')
    (hread : readUnit (c :: t) = some U) :
    parseSize (jsNatStr n ++ ⟨c :: t⟩) = (n : ℚ) * (unitMultiplier U : ℚ) := by
  have hs : jsNatStr n ++ (⟨c :: t⟩ : String) = ⟨natDigits (n + 1) n ++ c :: t⟩ := by
    apply String.ext
    simp [String.data_append, jsNatStr]
  rw [hs]
  rw [parseSize, matchSize_digits_tail n c t U hcd hcdot hread]
  have hval : digitsVal (natDigits (n + 1) n) = n := digitsVal_jsNatStr n
  have hdec : decimalValue ⟨natDigits (n + 1) n, [], U⟩ = (n : ℚ) := by
    simp only [decimalValue]
    rw [hval]
    norm_num [digitsVal]
  show decimalValue ⟨natDigits (n + 1) n, [], U⟩ * (unitMultiplier U : ℚ) =
    (n : ℚ) * (unitMultiplier U : ℚ)
  rw [hdec]

/-- C8: the Size Codec matches `<number><unit>` with unit in {B,KB,MB,GB,TB},
case-insensitive, with binary multiples of 1024, returning 0 on any
non-matching input; `parseSize "5MB" = 5242880`, `formatSize 0 = "0 B"`, and
`formatSize 5242880 = "5 MB"`. -/
theorem claim_C8_size_codec :
    (∀ s : String, matchSize s = none → parseSize s = 0) ∧
    (∀ n : Nat, ∀ u ∈ sizeUnits,
      parseSize (jsNatStr n ++ u) = (n : ℚ) * (unitMultiplier u : ℚ)) ∧
    unitMultiplier "B" = 1 ∧ unitMultiplier "KB" = 1024 ∧
    unitMultiplier "MB" = 1024 ^ 2 ∧ unitMultiplier "GB" = 1024 ^ 3 ∧
    unitMultiplier "TB" = 1024 ^ 4 ∧
    parseSize "5MB" = 5242880 ∧ parseSize "5mb" = 5242880 ∧
    parseSize "garbage" = 0 ∧ parseSize "" = 0 ∧
    formatSize 0 = "0 B" ∧ formatSize 5242880 = "5 MB" := by
  have hunit : ∀ n : Nat, ∀ u ∈ sizeUnits,
      parseSize (jsNatStr n ++ u) = (n : ℚ) * (unitMultiplier u : ℚ) := by
    intro n u hu
    simp only [sizeUnits, List.mem_cons, List.not_mem_nil, or_false] at hu
    rcases hu with rfl | rfl | rfl | rfl | rfl
    · exact parseSize_natStr_unit n 'B' [] "B" (by decide) (by decide) (by decide)
    · exact parseSize_natStr_unit n 'K' ['B'] "KB" (by decide) (by decide) (by decide)
    · exact parseSize_natStr_unit n 'M' ['B'] "MB" (by decide) (by decide) (by decide)
    · exact parseSize_natStr_unit n 'G' ['B'] "GB" (by decide) (by decide) (by decide)
    · exact parseSize_natStr_unit n 'T' ['B'] "TB" (by decide) (by decide) (by decide)
  have hMBmult : unitMultiplier "MB" = 1048576 := by decide
  have h5MB : parseSize "5MB" = 5242880 := by
    have he : "5MB" = jsNatStr 5 ++ "MB" := by decide
    rw [he, hunit 5 "MB" (by simp [sizeUnits]), hMBmult]
    norm_num
  have h5mb : parseSize "5mb" = 5242880 := by
    have he : "5mb" = jsNatStr 5 ++ ⟨['m', 'b']⟩ := by decide
    rw [he, parseSize_natStr_unit 5 'm' ['b'] "MB" (by decide) (by decide) (by decide), hMBmult]
    norm_num
  have hlog : Nat.log 1024 5242880 = 2 :=
    Nat.log_eq_of_pow_le_of_lt_pow (by norm_num) (by norm_num)
  have hfive : renderFixed2 5 = "5" := by
    have hfloor : (⌊(5 : ℚ) * 100 + 1 / 2⌋ : Int) = 500 := by
      rw [Int.floor_eq_iff]
      norm_num
    simp only [renderFixed2, hfloor]
    decide
  refine ⟨fun s h => by simp [parseSize, h], hunit, rfl, rfl, by decide,
    by decide, by decide, h5MB, h5mb,
    by decide, by decide, rfl, ?_⟩
  rw [formatSize, if_neg (by norm_num), hlog]
  show renderFixed2 (((5242880 : Nat) : ℚ) / (1024 : ℚ) ^ 2) ++ " " ++
    sizeUnits.getD 2 "undefined" = "5 MB"
  have hq : ((5242880 : Nat) : ℚ) / (1024 : ℚ) ^ 2 = 5 := by norm_num
  rw [hq, hfive]
  decide

/-- C9: `formatSize` yields a `<number> <unit>` string with a unit from the
table only for `bytes = 0` or `1 ≤ bytes < 1024^5`; for `bytes ≥ 1024^5` the
computed index exceeds the table and the unit renders as JS `undefined`. -/
theorem claim_C9_formatSize_overflow :
    (∀ bytes : Nat, 1 ≤ bytes → bytes < 1024 ^ 5 →
      sizeUnits.getD (Nat.log 1024 bytes) "undefined" ∈ sizeUnits ∧
      formatSize bytes =
        renderFixed2 ((bytes : ℚ) / (1024 : ℚ) ^ Nat.log 1024 bytes) ++ " " ++
          sizeUnits.getD (Nat.log 1024 bytes) "undefined") ∧
    (∀ bytes : Nat, 1024 ^ 5 ≤ bytes →
      sizeUnits[Nat.log 1024 bytes]? = none ∧
      formatSize bytes =
        renderFixed2 ((bytes : ℚ) / (1024 : ℚ) ^ Nat.log 1024 bytes) ++ " " ++ "undefined") := by
  constructor
  · intro bytes h1 h5
    have hlt : Nat.log 1024 bytes < 5 := by
      by_contra hge
      push_neg at hge
      exact absurd h5 (not_lt.2 (Nat.pow_le_of_le_log (by omega) hge))
    have hlen : Nat.log 1024 bytes < sizeUnits.length := by
      simpa [sizeUnits] using hlt
    constructor
    · rw [List.getD_eq_getElem?_getD, List.getElem?_eq_getElem hlen]
      simp [List.getElem_mem]
    · rw [formatSize, if_neg (by omega)]
  · intro bytes h5
    have h0 : bytes ≠ 0 := by
      intro h
      rw [h] at h5
      norm_num at h5
    have hge : 5 ≤ Nat.log 1024 bytes := (Nat.pow_le_iff_le_log (by norm_num) h0).1 h5
    have hlen : sizeUnits.length ≤ Nat.log 1024 bytes := by
      simpa [sizeUnits] using hge
    constructor
    · exact List.getElem?_eq_none hlen
    · rw [formatSize, if_neg h0]
      show renderFixed2 ((bytes : ℚ) / (1024 : ℚ) ^ Nat.log 1024 bytes) ++ " " ++
        sizeUnits.getD (Nat.log 1024 bytes) "undefined" = _
      rw [List.getD_eq_getElem?_getD, List.getElem?_eq_none hlen]
      rfl

theorem flatten_map_if (p : Char → Bool) (l : List Char) :
    (l.map fun c => if p c then [c] else []).flatten = l.filter p := by
  induction l with
  | nil => rfl
  | cons a t ih =>
    by_cases h : p a <;> simp [h, ih, List.filter_cons]

/-- C7: the temp file name has the form `temp_<hash>_<timestampMillis>`, where
the hash is the first 16 alphanumeric characters of the base64 encoding of the
original file name and the timestamp is the `Date.now()` of the request being
processed. -/
theorem claim_C7_temp_file_name :
    ∀ (fileName : String) (now : Nat),
      tempFileName fileName now = specTempFileName fileName now ∧
      (fileNameHash fileName).length ≤ 16 ∧
      ∀ c ∈ (fileNameHash fileName).data, isAlnumChar c = true := by
  intro fileName now
  have hf : ((base64Encode (utf8Bytes fileName)).data.map
        fun c => if isAlnumChar c then [c] else []).flatten
      = (base64Encode (utf8Bytes fileName)).data.filter isAlnumChar :=
    flatten_map_if _ _
  refine ⟨?_, ?_, ?_⟩
  · unfold tempFileName specTempFileName fileNameHash
    rw [hf]
  · show (((base64Encode (utf8Bytes fileName)).data.map
      fun c => if isAlnumChar c then [c] else []).flatten.take 16).length ≤ 16
    rw [hf, List.length_take]
    omega
  · intro c hc
    have hc2 : c ∈ (((base64Encode (utf8Bytes fileName)).data.map
        fun c => if isAlnumChar c then [c] else []).flatten.take 16) := hc
    rw [hf] at hc2
    exact List.of_mem_filter (List.take_subset _ _ hc2)

/-! ### Chunk arithmetic lemmas for the Planner -/

theorem ceilDiv_succ (S C : Nat) (hS : 0 < S) (hC : 0 < C) :
    ceilDiv S C = ceilDiv (S - C) C + 1 := by
  unfold ceilDiv
  rcases le_or_lt S C with h | h
  · have h1 : (S + C - 1) / C = 1 :=
      Nat.div_eq_of_lt_le (show 1 * C ≤ S + C - 1 by omega) (by omega)
    have h2 : S - C = 0 := by omega
    have h3 : (0 + C - 1) / C = 0 := Nat.div_eq_of_lt (by omega)
    rw [h1, h2, h3]
  · have he : S + C - 1 = (S - C + C - 1) + C := by omega
    rw [he, Nat.add_div_right _ hC]

theorem flatten_chunks (C : Nat) (hC : 0 < C) :
    ∀ (len : Nat) (l : List Nat), l.length ≤ len →
      ((List.range (ceilDiv l.length C)).map fun K => (l.drop (K * C)).take C).flatten = l := by
  intro len
  induction len with
  | zero =>
    intro l hl
    have hnil : l = [] := List.eq_nil_of_length_eq_zero (by omega)
    subst hnil
    have hc0 : ceilDiv 0 C = 0 := Nat.div_eq_of_lt (by omega)
    simp [hc0]
  | succ len ih =>
    intro l hl
    rcases Nat.eq_zero_or_pos l.length with h0 | h0
    · have hnil : l = [] := List.eq_nil_of_length_eq_zero h0
      subst hnil
      have hc0 : ceilDiv 0 C = 0 := Nat.div_eq_of_lt (by omega)
      simp [hc0]
    · have hlen : (l.drop C).length = l.length - C := List.length_drop C l
      have harg := ih (l.drop C) (by rw [hlen]; omega)
      rw [hlen] at harg
      rw [ceilDiv_succ _ _ h0 hC, List.range_succ_eq_map, List.map_cons, List.flatten_cons]
      have hmap2 : ((List.range (ceilDiv (l.length - C) C)).map (fun K => K + 1)).map
          (fun K => (l.drop (K * C)).take C) =
          (List.range (ceilDiv (l.length - C) C)).map
          (fun K => ((l.drop C).drop (K * C)).take C) := by
        rw [List.map_map]
        refine List.map_congr_left fun K _ => ?_
        show (l.drop ((K + 1) * C)).take C = ((l.drop C).drop (K * C)).take C
        have h1 : ((l.drop C).drop (K * C)) = l.drop ((K + 1) * C) := by
          rw [List.drop_drop]
          congr 1
          ring
        rw [h1]
      rw [hmap2, harg]
      simp

/-- C2: for file size `S` and threshold `C = max(1 MiB, configured)`, the
Planner makes one whole-file request with no chunk metadata when `S ≤ C`, and
otherwise exactly `ceil(S/C)` chunk requests in index order, where chunk `K`
carries the byte slice `[K*C, min((K+1)*C, S))`, `chunkIndex = K`,
`totalChunks`, the original file name and the destination path, and the
slices concatenate back to the original bytes. -/
theorem claim_C2_chunk_planner :
    ∀ (cfg : Nat) (C : Nat), C = chunkThreshold cfg →
    ∀ (bytes : List Nat) (fileName path : String),
      (bytes.length ≤ C →
        planRequests bytes fileName path C = [UploadRequest.whole bytes fileName path]) ∧
      (bytes.length > C →
        planRequests bytes fileName path C =
          (planChunks bytes fileName path C).map UploadRequest.chunk ∧
        (planChunks bytes fileName path C).length = ceilDiv bytes.length C ∧
        (∀ K, K < ceilDiv bytes.length C →
          (planChunks bytes fileName path C)[K]? = some
            { bytes := (bytes.drop (K * C)).take (min ((K + 1) * C) bytes.length - K * C)
              chunkIndex := K
              totalChunks := ceilDiv bytes.length C
              fileName := fileName
              path := path }) ∧
        ((planChunks bytes fileName path C).map PlannedChunk.bytes).flatten = bytes) := by
  intro cfg C hCdef bytes fileName path
  have hC : 0 < C := by
    rw [hCdef]
    unfold chunkThreshold
    omega
  constructor
  · intro hle
    unfold planRequests
    rw [if_neg (by omega)]
  · intro hgt
    refine ⟨by unfold planRequests; rw [if_pos hgt], by simp [planChunks], ?_, ?_⟩
    · intro K hK
      have htake : (bytes.drop (K * C)).take C =
          (bytes.drop (K * C)).take (min ((K + 1) * C) bytes.length - K * C) := by
        rw [List.take_eq_take]
        rw [List.length_drop]
        have : (K + 1) * C = K * C + C := by ring
        omega
      simp only [planChunks, List.getElem?_map, List.getElem?_range hK, Option.map_some']
      rw [htake]
    · have := flatten_chunks C hC bytes.length bytes le_rfl
      simp only [planChunks, List.map_map]
      convert this using 3

/-! ### Retry-loop lemmas -/

/-- Chunk index an event belongs to. -/
def eventChunk : UploadEvent → Nat
  | .send j _ => j
  | .wait j _ => j

theorem runChunkAttempts_allfail (oracle : Nat → Nat → Bool) (ci : Nat)
    (h0 : oracle ci 0 = false) (h1 : oracle ci 1 = false) (h2 : oracle ci 2 = false) :
    runChunkAttempts oracle ci 3 0 =
      ([.send ci 0, .wait ci 1000, .send ci 1, .wait ci 2000, .send ci 2], false) := by
  simp [runChunkAttempts, h0, h1, h2]

theorem runChunkAttempts_success (oracle : Nat → Nat → Bool) (ci : Nat)
    (h : ∃ a < 3, oracle ci a = true) :
    (runChunkAttempts oracle ci 3 0).2 = true := by
  by_cases q0 : oracle ci 0 = true
  · simp [runChunkAttempts, q0]
  · rw [Bool.not_eq_true] at q0
    by_cases q1 : oracle ci 1 = true
    · simp [runChunkAttempts, q0, q1]
    · rw [Bool.not_eq_true] at q1
      by_cases q2 : oracle ci 2 = true
      · simp [runChunkAttempts, q0, q1, q2]
      · rw [Bool.not_eq_true] at q2
        obtain ⟨a, ha, hoa⟩ := h
        interval_cases a <;> simp_all

theorem runChunkAttempts_events (oracle : Nat → Nat → Bool) (ci : Nat) :
    ∀ (fuel rc : Nat), ∀ e ∈ (runChunkAttempts oracle ci fuel rc).1,
      eventChunk e = ci ∧ ∀ j a, e = UploadEvent.send j a → rc ≤ a ∧ a < rc + fuel := by
  intro fuel
  induction fuel with
  | zero => intro rc e he; simp [runChunkAttempts] at he
  | succ fuel ih =>
    intro rc e he
    by_cases hq : oracle ci rc = true
    · simp [runChunkAttempts, hq] at he
      subst he
      exact ⟨rfl, fun j a hja => by cases hja; omega⟩
    · rw [Bool.not_eq_true] at hq
      by_cases hr : rc + 1 ≥ 3
      · simp [runChunkAttempts, hq, hr] at he
        subst he
        exact ⟨rfl, fun j a hja => by cases hja; omega⟩
      · simp [runChunkAttempts, hq, hr] at he
        rcases he with rfl | rfl | he
        · exact ⟨rfl, fun j a hja => by cases hja; omega⟩
        · exact ⟨rfl, fun j a hja => by cases hja⟩
        · obtain ⟨hch, hbd⟩ := ih (rc + 1) e he
          exact ⟨hch, fun j a hja => by have := hbd j a hja; omega⟩

theorem runUploadChunks_sends (oracle : Nat → Nat → Bool) :
    ∀ (n start : Nat), ∀ j a,
      UploadEvent.send j a ∈ (runUploadChunks oracle n start).1 → a < 3 := by
  intro n
  induction n with
  | zero => intro start j a h; simp [runUploadChunks] at h
  | succ n ih =>
    intro start j a h
    by_cases hs : (runChunkAttempts oracle start 3 0).2 = true
    · simp only [runUploadChunks, hs, if_true] at h
      rcases List.mem_append.1 h with h | h
      · have := (runChunkAttempts_events oracle start 3 0 _ h).2 j a rfl
        omega
      · exact ih (start + 1) j a h
    · rw [Bool.not_eq_true] at hs
      simp only [runUploadChunks, hs, Bool.false_eq_true, if_false] at h
      have := (runChunkAttempts_events oracle start 3 0 _ h).2 j a rfl
      omega

theorem runUploadChunks_fail (oracle : Nat → Nat → Bool) :
    ∀ (n start ci : Nat), start ≤ ci → ci < start + n →
      (∀ a < 3, oracle ci a = false) →
      (∀ j, start ≤ j → j < ci → ∃ a < 3, oracle j a = true) →
      ∃ pre, runUploadChunks oracle n start =
          (pre ++ [.send ci 0, .wait ci 1000, .send ci 1, .wait ci 2000, .send ci 2],
            .error ci) ∧
        ∀ e ∈ pre, start ≤ eventChunk e ∧ eventChunk e < ci := by
  intro n
  induction n with
  | zero => intro start ci h1 h2; omega
  | succ n ih =>
    intro start ci h1 h2 hfail hsucc
    rcases eq_or_lt_of_le h1 with rfl | hlt
    · have hall := runChunkAttempts_allfail oracle start (hfail 0 (by omega)) (hfail 1 (by omega))
        (hfail 2 (by omega))
      refine ⟨[], ?_, by simp⟩
      simp [runUploadChunks, hall]
    · have hs : (runChunkAttempts oracle start 3 0).2 = true :=
        runChunkAttempts_success _ _ (hsucc start le_rfl hlt)
      obtain ⟨pre, hrun, hpre⟩ := ih (start + 1) ci hlt (by omega) hfail
        (fun j hj1 hj2 => hsucc j (by omega) hj2)
      refine ⟨(runChunkAttempts oracle start 3 0).1 ++ pre, ?_, ?_⟩
      · simp [runUploadChunks, hs, hrun]
      · intro e he
        rcases List.mem_append.1 he with h | h
        · have := (runChunkAttempts_events oracle start 3 0 _ h).1
          omega
        · have := hpre e h
          omega

/-- C3: a failing chunk is retried up to 3 total attempts with linear backoff
`attempt * 1000` ms between attempts; when all 3 attempts of one chunk fail,
the whole file upload aborts with an error carrying that chunk's index (shown
as `Chunk <index+1>` in the message) and no chunk after it is ever sent. -/
theorem claim_C3_chunk_retry :
    ∀ (oracle : Nat → Nat → Bool) (totalChunks ci : Nat),
      ci < totalChunks →
      (∀ a < 3, oracle ci a = false) →
      (∀ j < ci, ∃ a < 3, oracle j a = true) →
      (uploadLargeFileTrace oracle totalChunks).2 = Except.error ci ∧
      chunkFailureMessage ci = "Chunk " ++ jsNatStr (ci + 1) ++ " failed after 3 attempts" ∧
      (∃ pre, (uploadLargeFileTrace oracle totalChunks).1 =
          pre ++ [.send ci 0, .wait ci 1000, .send ci 1, .wait ci 2000, .send ci 2] ∧
        ∀ e ∈ pre, eventChunk e < ci) ∧
      (∀ j a, UploadEvent.send j a ∈ (uploadLargeFileTrace oracle totalChunks).1 → a < 3) := by
  intro oracle totalChunks ci hci hfail hsucc
  obtain ⟨pre, hrun, hpre⟩ := runUploadChunks_fail oracle totalChunks 0 ci (by omega) (by omega)
    hfail (fun j _ hj => hsucc j hj)
  refine ⟨?_, rfl, ⟨pre, ?_, fun e he => (hpre e he).2⟩, ?_⟩
  · show (runUploadChunks oracle totalChunks 0).2 = Except.error ci
    rw [hrun]
  · show (runUploadChunks oracle totalChunks 0).1 = _
    rw [hrun]
  · intro j a
    exact runUploadChunks_sends oracle totalChunks 0 j a

/-- C6: every chunked request with `chunkIndex < 0`, `chunkIndex ≥ totalChunks`,
`totalChunks ≤ 0`, or an empty or whitespace-only file name is rejected with
HTTP 400 and leaves the filesystem untouched. -/
theorem claim_C6_validation :
    ∀ (fs : FS) (req : ChunkReq) (now : Nat) (rand : String),
      (req.chunkIndex < 0 ∨ req.chunkIndex ≥ req.totalChunks ∨ req.totalChunks ≤ 0 ∨
        jsTrim req.fileName = "") →
      ∃ msg, handleChunkedUpload fs req now rand = (.err msg 400, fs) := by
  intro fs req now rand h
  by_cases h1 : req.chunkIndex < 0 ∨ req.chunkIndex ≥ req.totalChunks
  · exact ⟨_, by rw [handleChunkedUpload, if_pos h1]⟩
  · push_neg at h1
    obtain ⟨hge, hlt⟩ := h1
    have htc : ¬req.totalChunks ≤ 0 := by omega
    have hname : jsTrim req.fileName = "" := by
      rcases h with h | h | h | h
      · omega
      · omega
      · omega
      · exact h
    refine ⟨"Invalid filename provided", ?_⟩
    rw [handleChunkedUpload, if_neg (by omega), if_neg htc, if_pos hname]

/-- C5: a successfully processed non-final chunk is answered with
`{success, message, chunkIndex, totalChunks, completed:false}` and no file
record, while the final chunk is answered with
`{success, message, files:[record], uploadPath, completed:true}` where the
record's `name` is the collision-resolved final name, `originalName` the
requested name, and `size` the byte length found at the promoted file
itself (a fresh stat, not a client-declared total). -/
theorem claim_C5_response_shapes :
    ∀ (fs : FS) (req : ChunkReq) (now : Nat) (rand : String),
      0 ≤ req.chunkIndex → req.chunkIndex < req.totalChunks →
      jsTrim req.fileName ≠ "" →
      (req.chunkIndex ≠ req.totalChunks - 1 →
        ∃ m, handleChunkedUpload fs req now rand =
          (.ack { success := true, message := m, chunkIndex := req.chunkIndex,
                  totalChunks := req.totalChunks, completed := false },
            if req.chunkIndex = 0 then
              fsWrite fs (tempPathOf req.fileName req.uploadPath now) req.bytes
            else fsAppend fs (tempPathOf req.fileName req.uploadPath now) req.bytes)) ∧
      (req.chunkIndex = req.totalChunks - 1 →
        ∃ m rec fs₂, handleChunkedUpload fs req now rand =
            (.complete { success := true, message := m, files := [rec],
                         uploadPath := sanitizePath req.uploadPath, completed := true },
              fs₂) ∧
          rec.name = resolveCollision
            (if req.chunkIndex = 0 then
              fsWrite fs (tempPathOf req.fileName req.uploadPath now) req.bytes
            else fsAppend fs (tempPathOf req.fileName req.uploadPath now) req.bytes)
            (pathJoin STORAGE_PATH (sanitizePath req.uploadPath)) req.fileName ∧
          rec.originalName = req.fileName ∧
          rec.size = ((fsLookup fs₂
            (pathJoin (pathJoin STORAGE_PATH (sanitizePath req.uploadPath)) rec.name)).getD
            []).length) := by
  intro fs req now rand hge hlt hname
  constructor
  · intro hne
    refine ⟨"Chunk " ++ jsIntStr (req.chunkIndex + 1) ++ "/" ++ jsIntStr req.totalChunks
      ++ " uploaded successfully", ?_⟩
    rw [handleChunkedUpload, if_neg (by omega), if_neg (by omega), if_neg hname, if_neg hne]
    rfl
  · intro heq
    rw [handleChunkedUpload, if_neg (by omega), if_neg (by omega), if_neg hname, if_pos heq]
    exact ⟨_, _, _, rfl, rfl, rfl, rfl⟩

/-- Sizes of the file records a response carries (empty for errors and
acknowledgements). -/
def completionSizes : ChunkResponse → List Nat
  | .complete c => c.files.map FileRecord.size
  | _ => []

/-- C1 fails on the code: the temp file name embeds `Date.now()` recomputed on
every chunk request, so a two-chunk upload of the bytes `[1]` then `[2]`
processed at 1000 ms and 1001 ms appends chunk 1 to a fresh temp file and
promotes only it; the completed file holds 1 byte, not the 2 bytes sent, and
chunk 0's byte sits in an orphaned temp file. -/
theorem claim_C1_timestamp_bug :
    fsLookup (runChunkRequests []
        [({ bytes := [1], uploadPath := "/", chunkIndex := 0, totalChunks := 2,
            fileName := "a.bin", mimeType := "" }, 1000, "r"),
         ({ bytes := [2], uploadPath := "/", chunkIndex := 1, totalChunks := 2,
            fileName := "a.bin", mimeType := "" }, 1001, "r")]).2
        (pathJoin (pathJoin STORAGE_PATH "/") "a.bin") = some [2] ∧
    fsLookup (runChunkRequests []
        [({ bytes := [1], uploadPath := "/", chunkIndex := 0, totalChunks := 2,
            fileName := "a.bin", mimeType := "" }, 1000, "r"),
         ({ bytes := [2], uploadPath := "/", chunkIndex := 1, totalChunks := 2,
            fileName := "a.bin", mimeType := "" }, 1001, "r")]).2
        (tempPathOf "a.bin" "/" 1000) = some [1] ∧
    (runChunkRequests []
        [({ bytes := [1], uploadPath := "/", chunkIndex := 0, totalChunks := 2,
            fileName := "a.bin", mimeType := "" }, 1000, "r"),
         ({ bytes := [2], uploadPath := "/", chunkIndex := 1, totalChunks := 2,
            fileName := "a.bin", mimeType := "" }, 1001, "r")]).1.map completionSizes =
      [[], [1]] ∧
    ([1] ++ [2] : List Nat).length = 2 ∧ (1 : Nat) ≠ 2 := by
  refine ⟨by decide, by decide, by decide, by decide, by decide⟩

/-! ### Filesystem lemmas -/

theorem fsLookup_fsWrite_self (fs : FS) (p : String) (bs : List Nat) :
    fsLookup (fsWrite fs p bs) p = some bs := by
  induction fs with
  | nil => simp [fsWrite, fsLookup]
  | cons e rest ih =>
    by_cases h : e.1 = p
    · simp [fsWrite, h, fsLookup]
    · simp [fsWrite, h, fsLookup, ih]

theorem fsLookup_fsWrite_other (fs : FS) (p q : String) (bs : List Nat) (hne : q ≠ p) :
    fsLookup (fsWrite fs p bs) q = fsLookup fs q := by
  induction fs with
  | nil => simp [fsWrite, fsLookup, Ne.symm hne]
  | cons e rest ih =>
    by_cases h : e.1 = p
    · have h2 : ¬e.1 = q := by
        rw [h]
        exact Ne.symm hne
      simp [fsWrite, h, fsLookup, h2, Ne.symm hne]
    · simp [fsWrite, h, fsLookup, ih]

theorem fsLookup_fsRemove_self (fs : FS) (p : String) :
    fsLookup (fsRemove fs p) p = none := by
  induction fs with
  | nil => simp [fsRemove, fsLookup]
  | cons e rest ih =>
    by_cases h : e.1 = p
    · simp [fsRemove, h, ih]
    · simp [fsRemove, h, fsLookup, ih]

theorem fsLookup_fsRemove_other (fs : FS) (p q : String) (hne : q ≠ p) :
    fsLookup (fsRemove fs p) q = fsLookup fs q := by
  induction fs with
  | nil => simp [fsRemove]
  | cons e rest ih =>
    by_cases h : e.1 = p
    · simp [fsRemove, h, fsLookup, Ne.symm hne, ih]
    · simp [fsRemove, h, fsLookup, ih]

theorem fsExists_mem (fs : FS) (p : String) (h : fsExists fs p = true) :
    p ∈ fs.map Prod.fst := by
  induction fs with
  | nil => simp [fsExists, fsLookup] at h
  | cons e rest ih =>
    by_cases he : e.1 = p
    · simp [he ▸ List.mem_cons_self e.1 (rest.map Prod.fst), he]
    · simp only [fsExists, fsLookup, if_neg he] at h
      simp [ih h]

/-! ### Whole-file naming lemmas -/

theorem length_takeWhile_le_of_imp (p q : Char → Bool) (h : ∀ a, p a = true → q a = true) :
    ∀ l : List Char, (l.takeWhile p).length ≤ (l.takeWhile q).length := by
  intro l
  induction l with
  | nil => simp
  | cons a t ih =>
    by_cases hp : p a = true
    · simp [List.takeWhile_cons, hp, h a hp]
      omega
    · rw [Bool.not_eq_true] at hp
      simp [List.takeWhile_cons, hp]

theorem dropWhile_head_not (p : Char → Bool) :
    ∀ (l : List Char) (c : Char) (t : List Char), l.dropWhile p = c :: t → p c = false := by
  intro l
  induction l with
  | nil => intro c t h; cases h
  | cons a l ih =>
    intro c t h
    by_cases hp : p a = true
    · simp [List.dropWhile_cons, hp] at h
      exact ih _ _ h
    · rw [Bool.not_eq_true] at hp
      simp [List.dropWhile_cons, hp] at h
      exact h.1 ▸ hp

theorem base_ext_length (name : String) :
    name.length ≤ (regexStripExt name).length + (dotExt name).length + 1 := by
  have hext : (dotExt name).length =
      (name.data.reverse.takeWhile (fun c => c != '.')).length := by
    show ((name.data.reverse.takeWhile (fun c => c != '.')).reverse).length = _
    rw [List.length_reverse]
  have hmono := length_takeWhile_le_of_imp (fun c => c != '.' && c != '/') (fun c => c != '.')
    (by intro a ha; rw [Bool.and_eq_true] at ha; exact ha.1) name.data.reverse
  have hname : name.length = name.data.reverse.length := by
    rw [List.length_reverse]
    rfl
  cases hsuf : name.data.reverse.takeWhile (fun c => c != '.' && c != '/') with
  | nil =>
    have hb : regexStripExt name = name := by
      simp only [regexStripExt]
      rw [hsuf]
    rw [hb]
    omega
  | cons a t =>
    cases hdrop : name.data.reverse.dropWhile (fun c => c != '.' && c != '/') with
    | nil =>
      have hb : regexStripExt name = name := by
        simp only [regexStripExt]
        rw [hsuf, hdrop]
      rw [hb]
      omega
    | cons c pre =>
      have hfail : (c != '.' && c != '/') = false := dropWhile_head_not _ _ _ _ hdrop
      have hsplit : name.data.reverse.takeWhile (fun x => x != '.' && x != '/') ++
          name.data.reverse.dropWhile (fun x => x != '.' && x != '/') = name.data.reverse := by
        apply List.takeWhile_append_dropWhile
      rw [hsuf, hdrop] at hsplit
      have hlens : (a :: t).length + (c :: pre).length = name.data.reverse.length := by
        rw [← hsplit, List.length_append]
      have hsufle : (a :: t).length ≤
          (name.data.reverse.takeWhile (fun c => c != '.')).length := hsuf ▸ hmono
      by_cases hc : c = '.'
      · subst hc
        have hb : regexStripExt name = ⟨pre.reverse⟩ := by
          simp only [regexStripExt]
          rw [hsuf, hdrop]
          rfl
        have hpre : (String.mk pre.reverse).length = pre.length := by
          show (pre.reverse).length = pre.length
          rw [List.length_reverse]
        rw [hb]
        simp only [List.length_cons] at hlens hsufle
        omega
      · have hc2 : c = '/' := by
          by_cases h2 : c = '/'
          · exact h2
          · simp [hc, h2] at hfail
        subst hc2
        have hb : regexStripExt name = name := by
          simp only [regexStripExt]
          rw [hsuf, hdrop]
          rfl
        rw [hb]
        omega

theorem jsNatStr_length_pos (n : Nat) : 1 ≤ (jsNatStr n).length := by
  show 1 ≤ (natDigits (n + 1) n).length
  cases h : natDigits (n + 1) n with
  | nil => exact absurd h (natDigits_ne_nil n n)
  | cons a t => simp

theorem uniqueUploadName_length (name : String) (now : Nat) (rand : String) :
    name.length < (uniqueUploadName name now rand).length := by
  have h1 := base_ext_length name
  have h2 := jsNatStr_length_pos now
  unfold uniqueUploadName
  simp only [String.length_append]
  have hu : ("_" : String).length = 1 := rfl
  have hd : ("." : String).length = 1 := rfl
  rw [hu, hd]
  omega

theorem pathJoin_right_inj (d a b : String) (h : pathJoin d a = pathJoin d b) : a = b := by
  have hd := congrArg String.data h
  simp only [pathJoin, String.data_append] at hd
  exact String.ext (List.append_cancel_left hd)

theorem resolveCollision_of_free (fs : FS) (dir fileName : String)
    (h : fsExists fs (pathJoin dir fileName) = false) :
    resolveCollision fs dir fileName = fileName := by
  unfold resolveCollision resolveCollisionCounter
  have hfuel : fs.length + 2 = (fs.length + 1) + 1 := rfl
  have hstop : findFreeCounter fs dir fileName ((fs.length + 1) + 1) 0 = 0 := by
    simp [findFreeCounter, collisionCandidate, h]
  rw [hfuel, hstop]
  rfl

/-- C10: a successful whole-file (non-chunked) upload stores the file under
the generated name `<base>_<timestamp>_<randomSuffix>.<ext>`, which is never
the original name (it is strictly longer); the returned record's `name`
equals the original `file.name` and only its `path` embeds the generated
on-disk name; a lookup under the original name is untouched.  Chunked
finalization, in contrast, keeps the original name whenever it is free. -/
theorem claim_C10_wholefile_naming :
    (∀ (name : String) (now : Nat) (rand : String),
      name.length < (uniqueUploadName name now rand).length ∧
      uniqueUploadName name now rand ≠ name) ∧
    (∀ (fs : FS) (f : WholeFileUpload) (uploadPath : String) (now : Nat) (rand : String),
      (processWholeFile fs f uploadPath now rand).1.name = f.name ∧
      (processWholeFile fs f uploadPath now rand).1.originalName = f.name ∧
      (processWholeFile fs f uploadPath now rand).1.path =
        sanitizePath uploadPath ++ "/" ++ uniqueUploadName f.name now rand ∧
      fsLookup (processWholeFile fs f uploadPath now rand).2
        (pathJoin (pathJoin STORAGE_PATH (sanitizePath uploadPath))
          (uniqueUploadName f.name now rand)) = some f.bytes ∧
      fsLookup (processWholeFile fs f uploadPath now rand).2
        (pathJoin (pathJoin STORAGE_PATH (sanitizePath uploadPath)) f.name) =
        fsLookup fs (pathJoin (pathJoin STORAGE_PATH (sanitizePath uploadPath)) f.name)) ∧
    (∀ (fs : FS) (dir fileName : String),
      fsExists fs (pathJoin dir fileName) = false →
      resolveCollision fs dir fileName = fileName) := by
  have hne : ∀ (name : String) (now : Nat) (rand : String),
      uniqueUploadName name now rand ≠ name := by
    intro name now rand he
    have := congrArg String.length he
    have hlt := uniqueUploadName_length name now rand
    omega
  refine ⟨fun name now rand => ⟨uniqueUploadName_length name now rand, hne name now rand⟩,
    ?_, resolveCollision_of_free⟩
  intro fs f uploadPath now rand
  refine ⟨rfl, rfl, rfl, ?_, ?_⟩
  · exact fsLookup_fsWrite_self fs _ f.bytes
  · apply fsLookup_fsWrite_other
    intro he
    exact hne f.name now rand (pathJoin_right_inj _ _ _ he).symm

/-! ### Collision-loop correctness -/

theorem collisionCandidate_inj (fileName : String) (k₁ k₂ : Nat) (h1 : 1 ≤ k₁) (h2 : 1 ≤ k₂)
    (he : collisionCandidate fileName k₁ = collisionCandidate fileName k₂) : k₁ = k₂ := by
  unfold collisionCandidate at he
  rw [if_neg (by omega), if_neg (by omega)] at he
  have hd := congrArg String.data he
  simp only [String.data_append] at hd
  have hd2 := List.append_cancel_right hd
  have hd3 := List.append_cancel_right hd2
  have hd4 := List.append_cancel_left hd3
  exact jsNatStr_injective (String.ext hd4)

theorem exists_free_candidate (fs : FS) (dir fileName : String) :
    ∃ k, k ≤ fs.length + 1 ∧
      fsExists fs (pathJoin dir (collisionCandidate fileName k)) = false := by
  by_contra hall
  push_neg at hall
  have hocc : ∀ k ∈ Finset.Icc 1 (fs.length + 1),
      pathJoin dir (collisionCandidate fileName k) ∈ (fs.map Prod.fst).toFinset := by
    intro k hk
    rw [Finset.mem_Icc] at hk
    have hne := hall k hk.2
    have htrue : fsExists fs (pathJoin dir (collisionCandidate fileName k)) = true := by
      cases hb : fsExists fs (pathJoin dir (collisionCandidate fileName k))
      · exact absurd hb hne
      · rfl
    exact List.mem_toFinset.2 (fsExists_mem fs _ htrue)
  have hinj : Set.InjOn (fun k => pathJoin dir (collisionCandidate fileName k))
      (Finset.Icc 1 (fs.length + 1)) := by
    intro k₁ hk₁ k₂ hk₂ he
    rw [Finset.coe_Icc, Set.mem_Icc] at hk₁ hk₂
    exact collisionCandidate_inj fileName k₁ k₂ hk₁.1 hk₂.1 (pathJoin_right_inj _ _ _ he)
  have hcard := Finset.card_le_card_of_injOn _ hocc hinj
  rw [Nat.card_Icc] at hcard
  have hlen : (fs.map Prod.fst).toFinset.card ≤ fs.length := by
    have := (fs.map Prod.fst).toFinset_card_le
    simpa using this
  omega

theorem findFreeCounter_step (fs : FS) (dir fileName : String) (fuel k : Nat)
    (h : fsExists fs (pathJoin dir (collisionCandidate fileName k)) = true) :
    findFreeCounter fs dir fileName (fuel + 1) k = findFreeCounter fs dir fileName fuel (k + 1) := by
  simp [findFreeCounter, h]

theorem findFreeCounter_stop (fs : FS) (dir fileName : String) (fuel k : Nat)
    (h : fsExists fs (pathJoin dir (collisionCandidate fileName k)) = false) :
    findFreeCounter fs dir fileName (fuel + 1) k = k := by
  simp [findFreeCounter, h]

theorem findFreeCounter_free (fs : FS) (dir fileName : String) :
    ∀ (fuel start : Nat),
      (∃ j, start ≤ j ∧ j < start + fuel ∧
        fsExists fs (pathJoin dir (collisionCandidate fileName j)) = false) →
      fsExists fs (pathJoin dir
        (collisionCandidate fileName (findFreeCounter fs dir fileName fuel start))) = false := by
  intro fuel
  induction fuel with
  | zero =>
    intro start h
    obtain ⟨j, h1, h2, _⟩ := h
    omega
  | succ fuel ih =>
    intro start h
    obtain ⟨j, h1, h2, hfree⟩ := h
    by_cases hs : fsExists fs (pathJoin dir (collisionCandidate fileName start)) = true
    · rw [findFreeCounter_step fs dir fileName fuel start hs]
      apply ih
      refine ⟨j, ?_, by omega, hfree⟩
      rcases Nat.eq_or_lt_of_le h1 with rfl | hlt
      · rw [hfree] at hs
        cases hs
      · omega
    · rw [Bool.not_eq_true] at hs
      rw [findFreeCounter_stop fs dir fileName fuel start hs]
      exact hs

theorem findFreeCounter_min (fs : FS) (dir fileName : String) :
    ∀ (fuel start k : Nat), start ≤ k →
      k < findFreeCounter fs dir fileName fuel start →
      fsExists fs (pathJoin dir (collisionCandidate fileName k)) = true := by
  intro fuel
  induction fuel with
  | zero =>
    intro start k h1 h2
    simp [findFreeCounter] at h2
    omega
  | succ fuel ih =>
    intro start k h1 h2
    by_cases hs : fsExists fs (pathJoin dir (collisionCandidate fileName start)) = true
    · rw [findFreeCounter_step fs dir fileName fuel start hs] at h2
      rcases Nat.eq_or_lt_of_le h1 with rfl | hlt
      · exact hs
      · exact ih (start + 1) k hlt h2
    · rw [Bool.not_eq_true] at hs
      rw [findFreeCounter_stop fs dir fileName fuel start hs] at h2
      omega

theorem resolveCollision_free (fs : FS) (dir fileName : String) :
    fsExists fs (pathJoin dir (resolveCollision fs dir fileName)) = false := by
  obtain ⟨k, hk, hfree⟩ := exists_free_candidate fs dir fileName
  unfold resolveCollision resolveCollisionCounter
  apply findFreeCounter_free
  exact ⟨k, by omega, by omega, hfree⟩

theorem resolveCollision_min (fs : FS) (dir fileName : String) :
    ∀ k < resolveCollisionCounter fs dir fileName,
      fsExists fs (pathJoin dir (collisionCandidate fileName k)) = true := by
  intro k hk
  exact findFreeCounter_min fs dir fileName (fs.length + 2) 0 k (by omega) hk

/-! ### Effect of the handler on the filesystem -/

theorem fsLookup_fsAppend_other (fs : FS) (p q : String) (bs : List Nat) (hne : q ≠ p) :
    fsLookup (fsAppend fs p bs) q = fsLookup fs q := by
  unfold fsAppend
  cases h : fsLookup fs p
  · exact fsLookup_fsWrite_other fs p q _ hne
  · exact fsLookup_fsWrite_other fs p q _ hne

theorem fsRename_preserves (fs : FS) (src dst p : String) (hsrc : p ≠ src) (hdst : p ≠ dst) :
    fsLookup (fsRename fs src dst) p = fsLookup fs p := by
  unfold fsRename
  cases h : fsLookup fs src
  · rfl
  · rw [fsLookup_fsWrite_other _ _ _ _ hdst, fsLookup_fsRemove_other _ _ _ hsrc]

theorem handleChunkedUpload_final_fs (fs : FS) (req : ChunkReq) (now : Nat) (rand : String)
    (h0 : 0 ≤ req.chunkIndex) (_h1 : req.chunkIndex < req.totalChunks)
    (hname : jsTrim req.fileName ≠ "") (hfin : req.chunkIndex = req.totalChunks - 1) :
    (handleChunkedUpload fs req now rand).2 =
      fsRename
        (if req.chunkIndex = 0 then
          fsWrite fs (tempPathOf req.fileName req.uploadPath now) req.bytes
        else fsAppend fs (tempPathOf req.fileName req.uploadPath now) req.bytes)
        (tempPathOf req.fileName req.uploadPath now)
        (pathJoin (pathJoin STORAGE_PATH (sanitizePath req.uploadPath))
          (resolveCollision
            (if req.chunkIndex = 0 then
              fsWrite fs (tempPathOf req.fileName req.uploadPath now) req.bytes
            else fsAppend fs (tempPathOf req.fileName req.uploadPath now) req.bytes)
            (pathJoin STORAGE_PATH (sanitizePath req.uploadPath)) req.fileName)) := by
  rw [handleChunkedUpload, if_neg (by omega), if_neg (by omega), if_neg hname, if_pos hfin]
  rfl

theorem handleChunkedUpload_nonfinal_fs (fs : FS) (req : ChunkReq) (now : Nat) (rand : String)
    (h0 : 0 ≤ req.chunkIndex) (_h1 : req.chunkIndex < req.totalChunks)
    (hname : jsTrim req.fileName ≠ "") (hfin : req.chunkIndex ≠ req.totalChunks - 1) :
    (handleChunkedUpload fs req now rand).2 =
      if req.chunkIndex = 0 then
        fsWrite fs (tempPathOf req.fileName req.uploadPath now) req.bytes
      else fsAppend fs (tempPathOf req.fileName req.uploadPath now) req.bytes := by
  rw [handleChunkedUpload, if_neg (by omega), if_neg (by omega), if_neg hname, if_neg hfin]
  rfl

theorem handle_preserves (fs : FS) (req : ChunkReq) (now : Nat) (rand : String) (p : String)
    (h0 : 0 ≤ req.chunkIndex) (h1 : req.chunkIndex < req.totalChunks)
    (hname : jsTrim req.fileName ≠ "")
    (htemp : p ≠ tempPathOf req.fileName req.uploadPath now)
    (hex : fsExists fs p = true) :
    fsLookup (handleChunkedUpload fs req now rand).2 p = fsLookup fs p := by
  have hp1 : fsLookup
      (if req.chunkIndex = 0 then
        fsWrite fs (tempPathOf req.fileName req.uploadPath now) req.bytes
      else fsAppend fs (tempPathOf req.fileName req.uploadPath now) req.bytes) p =
      fsLookup fs p := by
    by_cases hz : req.chunkIndex = 0
    · rw [if_pos hz]
      exact fsLookup_fsWrite_other fs _ p req.bytes htemp
    · rw [if_neg hz]
      exact fsLookup_fsAppend_other fs _ p req.bytes htemp
  by_cases hfin : req.chunkIndex = req.totalChunks - 1
  · rw [handleChunkedUpload_final_fs fs req now rand h0 h1 hname hfin]
    set FS1 := (if req.chunkIndex = 0 then
        fsWrite fs (tempPathOf req.fileName req.uploadPath now) req.bytes
      else fsAppend fs (tempPathOf req.fileName req.uploadPath now) req.bytes) with hFS1
    have hex1 : fsExists FS1 p = true := by
      unfold fsExists
      rw [hp1]
      exact hex
    have hfree := resolveCollision_free FS1
      (pathJoin STORAGE_PATH (sanitizePath req.uploadPath)) req.fileName
    have hpd : p ≠ pathJoin (pathJoin STORAGE_PATH (sanitizePath req.uploadPath))
        (resolveCollision FS1 (pathJoin STORAGE_PATH (sanitizePath req.uploadPath))
          req.fileName) := by
      intro he
      rw [← he] at hfree
      rw [hex1] at hfree
      cases hfree
    rw [fsRename_preserves FS1 _ _ p htemp hpd, hp1]
  · rw [handleChunkedUpload_nonfinal_fs fs req now rand h0 h1 hname hfin]
    exact hp1

/-! ### One complete upload and sequences of uploads -/

theorem uploadOnce_spec (fs : FS) (fileName uploadPath : String) (bytes : List Nat) (now : Nat)
    (hname : jsTrim fileName ≠ "") :
    (uploadOnce fs fileName uploadPath bytes now).1 =
      resolveCollision (fsWrite fs (tempPathOf fileName uploadPath now) bytes)
        (pathJoin STORAGE_PATH (sanitizePath uploadPath)) fileName ∧
    (uploadOnce fs fileName uploadPath bytes now).2 =
      fsRename (fsWrite fs (tempPathOf fileName uploadPath now) bytes)
        (tempPathOf fileName uploadPath now)
        (pathJoin (pathJoin STORAGE_PATH (sanitizePath uploadPath))
          (resolveCollision (fsWrite fs (tempPathOf fileName uploadPath now) bytes)
            (pathJoin STORAGE_PATH (sanitizePath uploadPath)) fileName)) := by
  unfold uploadOnce
  rw [handleChunkedUpload, if_neg (by simp), if_neg (by simp), if_neg hname,
    if_pos (by simp)]
  exact ⟨rfl, rfl⟩

theorem uploadOnce_preserves (fs : FS) (fileName uploadPath : String) (bytes : List Nat)
    (now : Nat) (hname : jsTrim fileName ≠ "") (p : String)
    (hptemp : p ≠ tempPathOf fileName uploadPath now) (hex : fsExists fs p = true) :
    fsLookup (uploadOnce fs fileName uploadPath bytes now).2 p = fsLookup fs p := by
  obtain ⟨_, h2⟩ := uploadOnce_spec fs fileName uploadPath bytes now hname
  rw [h2]
  set FS1 := fsWrite fs (tempPathOf fileName uploadPath now) bytes with hFS1
  have hp1 : fsLookup FS1 p = fsLookup fs p :=
    fsLookup_fsWrite_other fs _ p bytes hptemp
  have hex1 : fsExists FS1 p = true := by
    unfold fsExists
    rw [hp1]
    exact hex
  have hfree := resolveCollision_free FS1
    (pathJoin STORAGE_PATH (sanitizePath uploadPath)) fileName
  have hpd : p ≠ pathJoin (pathJoin STORAGE_PATH (sanitizePath uploadPath))
      (resolveCollision FS1 (pathJoin STORAGE_PATH (sanitizePath uploadPath)) fileName) := by
    intro he
    rw [← he] at hfree
    rw [hex1] at hfree
    cases hfree
  rw [fsRename_preserves FS1 _ _ p hptemp hpd, hp1]

theorem uploadOnce_new_exists (fs : FS) (fileName uploadPath : String) (bytes : List Nat)
    (now : Nat) (hname : jsTrim fileName ≠ "") :
    fsExists (uploadOnce fs fileName uploadPath bytes now).2
      (pathJoin (pathJoin STORAGE_PATH (sanitizePath uploadPath))
        (uploadOnce fs fileName uploadPath bytes now).1) = true := by
  obtain ⟨h1, h2⟩ := uploadOnce_spec fs fileName uploadPath bytes now hname
  rw [h1, h2]
  set FS1 := fsWrite fs (tempPathOf fileName uploadPath now) bytes with hFS1
  have hsrc : fsLookup FS1 (tempPathOf fileName uploadPath now) = some bytes :=
    fsLookup_fsWrite_self fs _ bytes
  unfold fsRename
  rw [hsrc]
  unfold fsExists
  rw [fsLookup_fsWrite_self]
  rfl

theorem uploadOnce_name_free (fs : FS) (fileName uploadPath : String) (bytes : List Nat)
    (now : Nat) (hname : jsTrim fileName ≠ "") :
    fsExists (fsWrite fs (tempPathOf fileName uploadPath now) bytes)
      (pathJoin (pathJoin STORAGE_PATH (sanitizePath uploadPath))
        (uploadOnce fs fileName uploadPath bytes now).1) = false := by
  obtain ⟨h1, _⟩ := uploadOnce_spec fs fileName uploadPath bytes now hname
  rw [h1]
  exact resolveCollision_free _ _ _

theorem UploadSeq_preserves (fileName uploadPath : String) (hname : jsTrim fileName ≠ "")
    (fs : FS) (names : List String) (fsEnd : FS)
    (h : UploadSeq fileName uploadPath fs names fsEnd) :
    ∀ p, fsExists fs p = true → fsLookup fsEnd p = fsLookup fs p := by
  induction h with
  | nil fs => intro p _; rfl
  | step fs fsEnd bytes now names hTemp hRest ih =>
    intro p hex
    have hptemp : p ≠ tempPathOf fileName uploadPath now := by
      intro he
      rw [he] at hex
      rw [hex] at hTemp
      cases hTemp
    have hstep := uploadOnce_preserves fs fileName uploadPath bytes now hname p hptemp hex
    have hex2 : fsExists (uploadOnce fs fileName uploadPath bytes now).2 p = true := by
      unfold fsExists
      rw [hstep]
      exact hex
    rw [ih p hex2, hstep]

theorem UploadSeq_not_name (fileName uploadPath : String) (hname : jsTrim fileName ≠ "")
    (fs : FS) (names : List String) (fsEnd : FS)
    (h : UploadSeq fileName uploadPath fs names fsEnd) :
    ∀ p, fsExists fs p = true → ∀ nm ∈ names,
      pathJoin (pathJoin STORAGE_PATH (sanitizePath uploadPath)) nm ≠ p := by
  induction h with
  | nil fs => intro p _ nm hnm; cases hnm
  | step fs fsEnd bytes now names hTemp hRest ih =>
    intro p hex nm hnm
    have hptemp : p ≠ tempPathOf fileName uploadPath now := by
      intro he
      rw [he] at hex
      rw [hex] at hTemp
      cases hTemp
    rcases List.mem_cons.1 hnm with rfl | hnm
    · have hfree := uploadOnce_name_free fs fileName uploadPath bytes now hname
      intro he
      have hex1 : fsExists (fsWrite fs (tempPathOf fileName uploadPath now) bytes) p = true := by
        unfold fsExists
        rw [fsLookup_fsWrite_other fs _ p bytes hptemp]
        exact hex
      rw [he] at hfree
      rw [hex1] at hfree
      cases hfree
    · have hstep := uploadOnce_preserves fs fileName uploadPath bytes now hname p hptemp hex
      have hex2 : fsExists (uploadOnce fs fileName uploadPath bytes now).2 p = true := by
        unfold fsExists
        rw [hstep]
        exact hex
      exact ih p hex2 nm hnm

theorem UploadSeq_distinct (fileName uploadPath : String) (hname : jsTrim fileName ≠ "")
    (fs : FS) (names : List String) (fsEnd : FS)
    (h : UploadSeq fileName uploadPath fs names fsEnd) :
    names.Nodup ∧ ∀ nm ∈ names,
      fsExists fsEnd (pathJoin (pathJoin STORAGE_PATH (sanitizePath uploadPath)) nm) = true := by
  induction h with
  | nil fs => exact ⟨List.nodup_nil, fun nm hnm => absurd hnm (List.not_mem_nil nm)⟩
  | step fs fsEnd bytes now names hTemp hRest ih =>
    have hnew := uploadOnce_new_exists fs fileName uploadPath bytes now hname
    have hnotmem : (uploadOnce fs fileName uploadPath bytes now).1 ∉ names := by
      intro hmem
      exact UploadSeq_not_name fileName uploadPath hname _ names fsEnd hRest
        (pathJoin (pathJoin STORAGE_PATH (sanitizePath uploadPath))
          (uploadOnce fs fileName uploadPath bytes now).1) hnew
        (uploadOnce fs fileName uploadPath bytes now).1 hmem rfl
    have hpres := UploadSeq_preserves fileName uploadPath hname _ names fsEnd hRest
      (pathJoin (pathJoin STORAGE_PATH (sanitizePath uploadPath))
        (uploadOnce fs fileName uploadPath bytes now).1) hnew
    constructor
    · exact List.nodup_cons.2 ⟨hnotmem, ih.1⟩
    · intro nm hnm
      rcases List.mem_cons.1 hnm with rfl | hnm
      · unfold fsExists
        rw [hpres]
        exact hnew
      · exact ih.2 nm hnm

/-- C4: finalization resolves the final name by trying the original name and
then `<base>_<counter>.<ext>` for counter 1, 2, 3, … until a free name: the
chosen name is the candidate of the first free counter (every earlier
candidate names an existing file) and never names an existing file;
completing a chunked upload leaves every other pre-existing file unchanged; a
pre-existing `x.txt` with `x_1.txt` free finalizes as `x_1.txt`; and any
sequence of completed uploads of one name yields pairwise-distinct final
names, all present afterwards. -/
theorem claim_C4_collision_safety :
    (∀ (fs : FS) (dir fileName : String),
      resolveCollision fs dir fileName =
        collisionCandidate fileName (resolveCollisionCounter fs dir fileName) ∧
      fsExists fs (pathJoin dir (resolveCollision fs dir fileName)) = false ∧
      ∀ k < resolveCollisionCounter fs dir fileName,
        fsExists fs (pathJoin dir (collisionCandidate fileName k)) = true) ∧
    (∀ k : Nat, 1 ≤ k → ∀ fileName : String, collisionCandidate fileName k =
      dotBase fileName ++ "_" ++ jsNatStr k ++ "." ++ dotExt fileName) ∧
    (∀ (fs : FS) (dir : String),
      fsExists fs (pathJoin dir "x.txt") = true →
      fsExists fs (pathJoin dir "x_1.txt") = false →
      resolveCollision fs dir "x.txt" = "x_1.txt") ∧
    (∀ (fs : FS) (req : ChunkReq) (now : Nat) (rand : String) (p : String),
      0 ≤ req.chunkIndex → req.chunkIndex < req.totalChunks →
      jsTrim req.fileName ≠ "" →
      p ≠ tempPathOf req.fileName req.uploadPath now →
      fsExists fs p = true →
      fsLookup (handleChunkedUpload fs req now rand).2 p = fsLookup fs p) ∧
    (∀ (fileName uploadPath : String), jsTrim fileName ≠ "" →
      ∀ (fs : FS) (names : List String) (fsEnd : FS),
        UploadSeq fileName uploadPath fs names fsEnd →
        names.Nodup ∧ ∀ nm ∈ names,
          fsExists fsEnd (pathJoin (pathJoin STORAGE_PATH (sanitizePath uploadPath)) nm)
            = true) := by
  refine ⟨fun fs dir fileName => ⟨rfl, resolveCollision_free fs dir fileName,
      resolveCollision_min fs dir fileName⟩,
    fun k hk fileName => by unfold collisionCandidate; rw [if_neg (by omega)],
    ?_,
    fun fs req now rand p h0 h1 hname htemp hex =>
      handle_preserves fs req now rand p h0 h1 hname htemp hex,
    fun fileName uploadPath hname fs names fsEnd h =>
      UploadSeq_distinct fileName uploadPath hname fs names fsEnd h⟩
  intro fs dir hex hfree
  have hc0 : collisionCandidate "x.txt" 0 = "x.txt" := rfl
  have hc1 : collisionCandidate "x.txt" 1 = "x_1.txt" := by decide
  have hstep := findFreeCounter_step fs dir "x.txt" (fs.length + 1) 0
    (by rw [hc0]; exact hex)
  have hstop := findFreeCounter_stop fs dir "x.txt" fs.length 1
    (by rw [hc1]; exact hfree)
  unfold resolveCollision resolveCollisionCounter
  show collisionCandidate "x.txt" (findFreeCounter fs dir "x.txt" (fs.length + 1 + 1) 0)
    = "x_1.txt"
  rw [hstep, hstop, hc1]

/-- Witness for C4 at concrete inputs: a pre-existing `x.txt` forces the
finalized name `x_1.txt`, and two successive completed uploads of `x.txt`
yield distinct names. -/
theorem claim_C4_collision_safety_witness :
    resolveCollision [(pathJoin "d" "x.txt", [7])] "d" "x.txt" = "x_1.txt" ∧
    [(uploadOnce [] "x.txt" "/" [1] 10).1,
     (uploadOnce (uploadOnce [] "x.txt" "/" [1] 10).2 "x.txt" "/" [2] 11).1].Nodup := by
  constructor
  · exact claim_C4_collision_safety.2.2.1 [(pathJoin "d" "x.txt", [7])] "d"
      (by decide) (by decide)
  · have hseq : UploadSeq "x.txt" "/" []
        [(uploadOnce [] "x.txt" "/" [1] 10).1,
         (uploadOnce (uploadOnce [] "x.txt" "/" [1] 10).2 "x.txt" "/" [2] 11).1]
        (uploadOnce (uploadOnce [] "x.txt" "/" [1] 10).2 "x.txt" "/" [2] 11).2 :=
      UploadSeq.step [] _ [1] 10 _ (by decide)
        (UploadSeq.step _ _ [2] 11 _ (by decide) (UploadSeq.nil _))
    exact (claim_C4_collision_safety.2.2.2.2 "x.txt" "/" (by decide) [] _ _ hseq).1

/-! ### Witnesses instantiating the claims at concrete inputs -/

/-- Witness for C2: a 3-byte file below the 1 MiB floor plans one whole-file
request, and a file one byte over the floor plans 2 chunks. -/
theorem claim_C2_chunk_planner_witness :
    planRequests [1, 2, 3] "f.bin" "/" (chunkThreshold 0) =
      [UploadRequest.whole [1, 2, 3] "f.bin" "/"] ∧
    (planChunks (List.replicate 1048577 0) "big" "/" (chunkThreshold 0)).length = 2 := by
  have hC : chunkThreshold 0 = 1048576 := by decide
  constructor
  · exact (claim_C2_chunk_planner 0 (chunkThreshold 0) rfl [1, 2, 3] "f.bin" "/").1
      (by rw [hC]; decide)
  · have h := (claim_C2_chunk_planner 0 (chunkThreshold 0) rfl
      (List.replicate 1048577 0) "big" "/").2
      (by simp only [List.length_replicate, hC]; decide)
    rw [h.2.1]
    simp only [List.length_replicate, hC]
    decide

/-- Witness for C3: with chunk 1 failing every attempt after chunk 0
succeeds, a 3-chunk upload aborts with error index 1. -/
theorem claim_C3_chunk_retry_witness :
    (uploadLargeFileTrace (fun ci _ => ci == 0) 3).2 = Except.error 1 :=
  (claim_C3_chunk_retry (fun ci _ => ci == 0) 3 1 (by decide) (by decide) (by decide)).1

/-- Witness for C5: the single final chunk of `x.txt` is answered with a
completion response carrying one record. -/
theorem claim_C5_response_shapes_witness :
    ∃ m rec fs₂,
      handleChunkedUpload []
          { bytes := [5], uploadPath := "/", chunkIndex := 0, totalChunks := 1,
            fileName := "x.txt", mimeType := "" } 7 "r" =
        (.complete { success := true, message := m, files := [rec],
                     uploadPath := sanitizePath "/", completed := true }, fs₂) ∧
      rec.name = resolveCollision (fsWrite [] (tempPathOf "x.txt" "/" 7) [5])
        (pathJoin STORAGE_PATH (sanitizePath "/")) "x.txt" ∧
      rec.originalName = "x.txt" ∧
      rec.size = ((fsLookup fs₂
        (pathJoin (pathJoin STORAGE_PATH (sanitizePath "/")) rec.name)).getD []).length :=
  (claim_C5_response_shapes []
    { bytes := [5], uploadPath := "/", chunkIndex := 0, totalChunks := 1,
      fileName := "x.txt", mimeType := "" } 7 "r"
    (by decide) (by decide) (by decide)).2 (by decide)

/-- Witness for C6: a negative chunk index is rejected with 400 and no
filesystem change. -/
theorem claim_C6_validation_witness :
    ∃ msg, handleChunkedUpload []
        { bytes := [], uploadPath := "/", chunkIndex := -1, totalChunks := 1,
          fileName := "x", mimeType := "" } 0 "r" = (.err msg 400, []) :=
  claim_C6_validation []
    { bytes := [], uploadPath := "/", chunkIndex := -1, totalChunks := 1,
      fileName := "x", mimeType := "" } 0 "r" (Or.inl (by decide))

/-- Witness for C7 at `test.txt` and timestamp 42. -/
theorem claim_C7_temp_file_name_witness :
    tempFileName "test.txt" 42 = specTempFileName "test.txt" 42 ∧
    (fileNameHash "test.txt").length ≤ 16 :=
  ⟨(claim_C7_temp_file_name "test.txt" 42).1, (claim_C7_temp_file_name "test.txt" 42).2.1⟩

/-- Witness for C8: a non-matching string parses to 0 and `<n>KB` parses to
`n * 1024`. -/
theorem claim_C8_size_codec_witness :
    parseSize "xyz" = 0 ∧
    parseSize (jsNatStr 7 ++ "KB") = (7 : ℚ) * (unitMultiplier "KB" : ℚ) :=
  ⟨claim_C8_size_codec.1 "xyz" (by decide), claim_C8_size_codec.2.1 7 "KB" (by decide)⟩

/-- Witness for C9 at 5 bytes (unit from the table) and `1024^5` bytes (index
past the table). -/
theorem claim_C9_formatSize_overflow_witness :
    sizeUnits.getD (Nat.log 1024 5) "undefined" ∈ sizeUnits ∧
    sizeUnits[Nat.log 1024 (1024 ^ 5)]? = none :=
  ⟨(claim_C9_formatSize_overflow.1 5 (by norm_num) (by norm_num)).1,
   (claim_C9_formatSize_overflow.2 (1024 ^ 5) le_rfl).1⟩

/-- Witness for C10: the generated on-disk name differs from the original
name, and a free original name is kept by chunked finalization. -/
theorem claim_C10_wholefile_naming_witness :
    uniqueUploadName "x.txt" 5 "ab" ≠ "x.txt" ∧
    resolveCollision [] "d" "x.txt" = "x.txt" :=
  ⟨(claim_C10_wholefile_naming.1 "x.txt" 5 "ab").2,
   claim_C10_wholefile_naming.2.2 [] "d" "x.txt" (by decide)⟩

end FileServer
